import Mathlib

/-!
Verification of the object-storage core of a small content-addressable
object database written in Rust (src/object.rs, src/tree_entry.rs).

Bytes are modelled as natural numbers (each byte being a value below 256),
byte strings as lists of naturals.  Fallible Rust code is modelled with an
explicit result type that distinguishes a returned error from an abort via
an unwrap on a missing value.  All definitions are direct translations of
the Rust source; machine integers are naturals with explicit range checks
where the source performs one.
-/

namespace Git

/-- The three object kinds, from enum Kind in object.rs. -/
inductive Kind where
  | blob
  | tree
  | commit
deriving DecidableEq

/-- Tree-entry modes, from enum TreeEntryMode in tree_entry.rs. -/
inductive TreeEntryMode where
  | normalFile
  | executableFile
  | symlink
  | directory
deriving DecidableEq

/-- Numeric discriminant of each mode, as declared in tree_entry.rs. -/
def TreeEntryMode.modeVal : TreeEntryMode → Nat
  | .normalFile => 0o100644
  | .executableFile => 0o100755
  | .symlink => 0o120000
  | .directory => 0o40000

/-- TreeEntryMode::is_directory from tree_entry.rs. -/
def TreeEntryMode.isDirectory (m : TreeEntryMode) : Bool := m == .directory

/-- One directory entry of a tree object: struct TreeEntry of tree_entry.rs.
The hash field is a list of bytes; the source fixes its length to 20. -/
structure TreeEntry where
  mode : TreeEntryMode
  name : List Nat
  hash : List Nat
deriving DecidableEq

/-- Error cases surfaced by the read and iteration paths of object.rs. -/
inductive ReadErr where
  | cstr
  | utf8
  | unknownKind
  | badSize
  | unknownMode
  | eof
  | fuel
deriving DecidableEq

/-- Result of a fallible operation: a value, a returned error, or an abort
of the process caused by an unwrap on a missing value. -/
inductive RRes (α : Type) where
  | ok : α → RRes α
  | err : ReadErr → RRes α
  | panicked : RRes α
deriving DecidableEq

/-- True when the result is a returned error. -/
def RRes.isErr {α : Type} : RRes α → Bool
  | .err _ => true
  | _ => false

/-- Byte list of an ASCII string literal. -/
def asciiBytes (s : String) : List Nat := s.data.map Char.toNat

/-- BufRead::read_until sem: consume bytes up to and including the first
occurrence of the delimiter, returning the consumed bytes and the rest;
when the delimiter is absent everything is consumed. -/
def readUntil (d : Nat) : List Nat → List Nat × List Nat
  | [] => ([], [])
  | b :: bs =>
    if b = d then ([b], bs)
    else
      let p := readUntil d bs
      (b :: p.1, p.2)

/-- CStr::from_bytes_with_nul: the bytes must be nonempty, end with a NUL
byte, and contain no interior NUL; the result drops the terminator. -/
def cstrFromBytesWithNul (bs : List Nat) : Option (List Nat) :=
  if bs.getLast? == some 0 && bs.dropLast.all (fun b => b != 0) then
    some bs.dropLast
  else none

/-- str::split_once at a separator byte: split at the first occurrence. -/
def splitOnceByte (d : Nat) : List Nat → Option (List Nat × List Nat)
  | [] => none
  | b :: bs =>
    if b = d then some ([], bs)
    else (splitOnceByte d bs).map (fun p => (b :: p.1, p.2))

/-- UTF-8 validation state machine: the state lists the admissible ranges
of the continuation bytes still expected for the current code point. -/
def validUtf8Go : List (Nat × Nat) → List Nat → Bool
  | [], [] => true
  | _ :: _, [] => false
  | [], b :: bs =>
    if b < 128 then validUtf8Go [] bs
    else if 194 ≤ b && b ≤ 223 then validUtf8Go [(128, 191)] bs
    else if b == 224 then validUtf8Go [(160, 191), (128, 191)] bs
    else if 225 ≤ b && b ≤ 236 then validUtf8Go [(128, 191), (128, 191)] bs
    else if b == 237 then validUtf8Go [(128, 159), (128, 191)] bs
    else if 238 ≤ b && b ≤ 239 then validUtf8Go [(128, 191), (128, 191)] bs
    else if b == 240 then validUtf8Go [(144, 191), (128, 191), (128, 191)] bs
    else if 241 ≤ b && b ≤ 243 then validUtf8Go [(128, 191), (128, 191), (128, 191)] bs
    else if b == 244 then validUtf8Go [(128, 143), (128, 191), (128, 191)] bs
    else false
  | r :: rs, b :: bs =>
    if r.1 ≤ b && b ≤ r.2 then validUtf8Go rs bs else false

/-- str::from_utf8 validity of a byte sequence. -/
def validUtf8 (l : List Nat) : Bool := validUtf8Go [] l

/-- Decimal digits of a natural, least significant first; the fuel bounds
the recursion and any fuel of at least the digit count is exact. -/
def decDigitsRev (fuel : Nat) (n : Nat) : List Nat :=
  match fuel with
  | 0 => []
  | f + 1 => if n = 0 then [] else n % 10 :: decDigitsRev f (n / 10)

/-- ASCII bytes of the standard decimal rendering of a natural, as produced
by the Display formatting of an unsigned integer in the source. -/
def decBytes (n : Nat) : List Nat :=
  if n = 0 then [48] else (decDigitsRev n n).reverse.map (fun d => d + 48)

/-- Octal digits of a natural, least significant first, fuel bounded. -/
def octDigitsRev (fuel : Nat) (n : Nat) : List Nat :=
  match fuel with
  | 0 => []
  | f + 1 => if n = 0 then [] else n % 8 :: octDigitsRev f (n / 8)

/-- ASCII bytes of the octal rendering of a natural, as produced by the
Octal formatting used for tree-entry modes in object.rs. -/
def octalRender (n : Nat) : List Nat :=
  if n = 0 then [48] else (octDigitsRev n n).reverse.map (fun d => d + 48)

/-- str::parse for a 64-bit unsigned integer: an optional leading plus
sign, then at least one decimal digit, value below 2 to the 64. -/
def parseU64 (bs : List Nat) : Option Nat :=
  let ds := if bs.head? == some 43 then bs.tail else bs
  if ds.isEmpty then none
  else if ds.all (fun b => 48 ≤ b && b ≤ 57) then
    let v := ds.foldl (fun acc b => acc * 10 + (b - 48)) 0
    if v < 18446744073709551616 then some v else none
  else none

/-- The header tag written for each kind, from the Display impl of Kind. -/
def Kind.tokenBytes : Kind → List Nat
  | .blob => asciiBytes "blob"
  | .tree => asciiBytes "tree"
  | .commit => asciiBytes "commit"

/-- TryFrom of a kind token, from the TryFrom impl of Kind in object.rs. -/
def kindFromBytes (bs : List Nat) : Option Kind :=
  if bs == asciiBytes "blob" then some .blob
  else if bs == asciiBytes "tree" then some .tree
  else if bs == asciiBytes "commit" then some .commit
  else none

/-- The serialized object header written by Object::write: the kind token,
a space, the decimal size, and a NUL terminator. -/
def encodeHeaderBytes (k : Kind) (n : Nat) : List Nat :=
  k.tokenBytes ++ [32] ++ decBytes n ++ [0]

/-- Header parsing of a NUL-stripped header, following Object::read: the
bytes must be valid UTF-8, then split_once at the first space is
unwrapped (aborting when no space exists), the kind token is converted,
and the size token is parsed as a 64-bit unsigned integer. -/
def parseHeaderBytes (hdr : List Nat) : RRes (Kind × Nat) :=
  if validUtf8 hdr then
    match splitOnceByte 32 hdr with
    | none => .panicked
    | some kv =>
      match kindFromBytes kv.1 with
      | none => .err .unknownKind
      | some k =>
        match parseU64 kv.2 with
        | none => .err .badSize
        | some n => .ok (k, n)
  else .err .utf8

/-- The header-consuming part of Object::read on the decompressed stream:
read up to and including the first NUL, convert through CStr, then parse
the header, returning the parsed kind and size with the unread rest. -/
def parseHeader (s : List Nat) : RRes ((Kind × Nat) × List Nat) :=
  match cstrFromBytesWithNul (readUntil 0 s).1 with
  | none => .err .cstr
  | some hdr =>
    match parseHeaderBytes hdr with
    | .ok kn => .ok (kn, (readUntil 0 s).2)
    | .err e => .err e
    | .panicked => .panicked

/-- Object::read on the decompressed stream: parse the header, then bound
the payload reader to exactly the declared size via a take adaptor. -/
def readObject (s : List Nat) : RRes (Kind × Nat × List Nat) :=
  match parseHeader s with
  | .ok kn => .ok (kn.1.1, kn.1.2, kn.2.take kn.1.2)
  | .err e => .err e
  | .panicked => .panicked

/-- Whether a continuation byte of a UTF-8 sequence starts at this value. -/
def isUtf8Cont (b : Nat) : Bool := 128 ≤ b && b < 192

/-- str::is_char_boundary at a byte index. -/
def isCharBoundary (s : List Nat) (i : Nat) : Bool :=
  i == 0 || i == s.length || (decide (i < s.length) && !(isUtf8Cont (s.getD i 0)))

/-- The object-path derivation at the top of Object::read: the hex hash is
sliced at byte index 2 into a directory component and a file component;
the slicing aborts when index 2 is not a character boundary of the
string, exactly as Rust string slicing does. -/
def objectPathOf (hash : List Nat) : RRes (List Nat) :=
  if isCharBoundary hash 2 then
    .ok (asciiBytes ".git/objects/" ++ hash.take 2 ++ [47] ++ hash.drop 2)
  else .panicked

/-- One tree-entry serialization step of write_tree: octal mode, space,
raw name bytes, NUL, then the 20 raw hash bytes. -/
def serializeEntry (e : TreeEntry) : List Nat :=
  octalRender e.mode.modeVal ++ [32] ++ e.name ++ [0] ++ e.hash

/-- The tree payload of write_tree: the serialized entries concatenated
with no separators. -/
def serializeTreePayload (es : List TreeEntry) : List Nat :=
  es.foldr (fun e acc => serializeEntry e ++ acc) []

/-- TryFrom of a mode token, from the TryFrom impl in tree_entry.rs. -/
def modeFromBytes (bs : List Nat) : Option TreeEntryMode :=
  if bs == asciiBytes "100644" then some .normalFile
  else if bs == asciiBytes "100755" then some .executableFile
  else if bs == asciiBytes "120000" then some .symlink
  else if bs == asciiBytes "40000" then some .directory
  else none

/-- One call of the FallibleIterator next of TreeIterator in object.rs:
read up to the first space, stop when nothing was read, drop the final
byte of the scratch and parse it as a mode token, read the NUL-terminated
name through CStr, then read exactly 20 hash bytes. -/
def treeIterNext (s : List Nat) : RRes (Option (TreeEntry × List Nat)) :=
  if (readUntil 32 s).1.isEmpty then .ok none
  else if validUtf8 (readUntil 32 s).1.dropLast then
    match modeFromBytes (readUntil 32 s).1.dropLast with
    | none => .err .unknownMode
    | some m =>
      match cstrFromBytesWithNul (readUntil 0 (readUntil 32 s).2).1 with
      | none => .err .cstr
      | some nm =>
        if 20 ≤ (readUntil 0 (readUntil 32 s).2).2.length then
          .ok (some (⟨m, nm, (readUntil 0 (readUntil 32 s).2).2.take 20⟩,
            (readUntil 0 (readUntil 32 s).2).2.drop 20))
        else .err .eof
  else .err .utf8

/-- Repeated calls of the tree iterator until it reports the end, with an
explicit bound on the number of calls; exhausting the bound is flagged. -/
def runTreeIter : Nat → List Nat → RRes (List TreeEntry)
  | 0, _ => .err .fuel
  | fuel + 1, s =>
    match treeIterNext s with
    | .ok none => .ok []
    | .ok (some p) =>
      match runTreeIter fuel p.2 with
      | .ok es => .ok (p.1 :: es)
      | .err e => .err e
      | .panicked => .panicked
    | .err e => .err e
    | .panicked => .panicked

/-- Byte comparison as in the Ord instance of u8: three-way compare. -/
def natCmp (a b : Nat) : Ordering :=
  if a < b then .lt else if a = b then .eq else .gt

/-- Lexicographic comparison of byte slices, as slice cmp in Rust. -/
def bytesCmp : List Nat → List Nat → Ordering
  | [], [] => .eq
  | [], _ :: _ => .lt
  | _ :: _, [] => .gt
  | a :: la, b :: lb =>
    match natCmp a b with
    | .eq => bytesCmp la lb
    | o => o

/-- Comparison of optional bytes, as the Ord instance of Option in Rust:
a missing value sorts before any present value. -/
def optNatCmp : Option Nat → Option Nat → Ordering
  | none, none => .eq
  | none, some _ => .lt
  | some _, none => .gt
  | some a, some b => natCmp a b

/-- The Ord impl of TreeEntry in tree_entry.rs: compare the names up to
the shorter length; on a tie compare the byte just past the shorter name,
substituting a slash for a missing byte when that entry is a directory. -/
def TreeEntry.cmp (a b : TreeEntry) : Ordering :=
  let l := min a.name.length b.name.length
  match bytesCmp (a.name.take l) (b.name.take l) with
  | .eq =>
    optNatCmp
      ((a.name[l]?).or (if a.mode.isDirectory then some 47 else none))
      ((b.name[l]?).or (if b.mode.isDirectory then some 47 else none))
  | o => o

/-- The PartialEq impl of TreeEntry in tree_entry.rs, exactly as written:
the directory test is applied in one direction only, then names compare. -/
def TreeEntry.eqRs (a b : TreeEntry) : Bool :=
  if a.mode.isDirectory && !(b.mode.isDirectory) then false
  else a.name == b.name

/-- The fixed identity written by write_commit. -/
def commitIdent : List Nat := asciiBytes "toxeeec <bartosz.kapciak@gmail.com>"

/-- The commit text payload built by write_commit in object.rs, given the
tree hash, the message, an optional parent, the timestamp and the rendered
timezone: the tree line, the optional parent line, the author line, the
second identity line exactly as the source spells it, a blank line, then
the message line. -/
def buildCommitPayload (tree message : List Nat) (parent : Option (List Nat))
    (timestamp : Nat) (timezone : List Nat) : List Nat :=
  asciiBytes "tree " ++ tree ++ [10] ++
  (match parent with
   | some p => asciiBytes "parent " ++ p ++ [10]
   | none => []) ++
  asciiBytes "author " ++ commitIdent ++ [32] ++ decBytes timestamp ++ [32] ++ timezone ++ [10] ++
  asciiBytes "commiter " ++ commitIdent ++ [32] ++ decBytes timestamp ++ [32] ++ timezone ++ [10] ++
  [10] ++ message ++ [10]

/-- Whether the pattern occurs as a contiguous run at the front. -/
def startsWithBytes (pat s : List Nat) : Bool := s.take pat.length == pat

/-- Whether the pattern occurs as a contiguous run anywhere in the list. -/
def containsSub (pat : List Nat) : List Nat → Bool
  | [] => startsWithBytes pat []
  | b :: rest => startsWithBytes pat (b :: rest) || containsSub pat rest

/-- Left rotation of a 32-bit word held in a natural. -/
def rotl (k x : Nat) : Nat := ((x <<< k) % 4294967296) ||| (x >>> (32 - k))

/-- The SHA-1 round function. -/
def sha1F (t b c d : Nat) : Nat :=
  if t < 20 then (b &&& c) ||| ((b ^^^ 4294967295) &&& d)
  else if t < 40 then b ^^^ c ^^^ d
  else if t < 60 then (b &&& c) ||| (b &&& d) ||| (c &&& d)
  else b ^^^ c ^^^ d

/-- The SHA-1 round constants. -/
def sha1K (t : Nat) : Nat :=
  if t < 20 then 0x5A827999
  else if t < 40 then 0x6ED9EBA1
  else if t < 60 then 0x8F1BBCDC
  else 0xCA62C1D6

/-- Big-endian bytes of a natural in a fixed width. -/
def beBytes (k n : Nat) : List Nat :=
  (List.range k).map (fun i => (n >>> (8 * (k - 1 - i))) % 256)

/-- Big-endian 32-bit words of a byte list. -/
def toWords : List Nat → List Nat
  | a :: b :: c :: d :: rest => (((a * 256 + b) * 256 + c) * 256 + d) :: toWords rest
  | _ => []

/-- SHA-1 padding: the one bit, zero bytes up to 56 modulo 64, then the
bit length in 8 big-endian bytes. -/
def sha1Pad (msg : List Nat) : List Nat :=
  msg ++ 128 :: List.replicate ((119 - msg.length % 64) % 64) 0 ++ beBytes 8 (8 * msg.length)

/-- One message-schedule extension step. -/
def sha1Ext (ws : List Nat) : List Nat :=
  ws ++ [rotl 1 ((ws.getD (ws.length - 3) 0) ^^^ (ws.getD (ws.length - 8) 0) ^^^
    (ws.getD (ws.length - 14) 0) ^^^ (ws.getD (ws.length - 16) 0))]

/-- The 80-word message schedule of one block. -/
def sha1Schedule (ws : List Nat) : List Nat :=
  (List.range 64).foldl (fun acc _ => sha1Ext acc) ws

/-- One SHA-1 round on the five-word state. -/
def sha1Round (w : List Nat) (st : Nat × Nat × Nat × Nat × Nat) (t : Nat) :
    Nat × Nat × Nat × Nat × Nat :=
  match st with
  | (a, b, c, d, e) =>
    ((rotl 5 a + sha1F t b c d + e + sha1K t + w.getD t 0) % 4294967296,
      a, rotl 30 b, c, d)

/-- Compression of one 64-byte block into the running state. -/
def sha1Compress (h : Nat × Nat × Nat × Nat × Nat) (block : List Nat) :
    Nat × Nat × Nat × Nat × Nat :=
  match h, (List.range 80).foldl (sha1Round (sha1Schedule (toWords block))) h with
  | (h0, h1, h2, h3, h4), (a, b, c, d, e) =>
    ((h0 + a) % 4294967296, (h1 + b) % 4294967296, (h2 + c) % 4294967296,
      (h3 + d) % 4294967296, (h4 + e) % 4294967296)

/-- Split a byte list into 64-byte blocks, fuel bounded by the length. -/
def chunks64 (fuel : Nat) (l : List Nat) : List (List Nat) :=
  match fuel with
  | 0 => []
  | f + 1 => if l.isEmpty then [] else l.take 64 :: chunks64 f (l.drop 64)

/-- The 20-byte SHA-1 digest of a byte list. -/
def sha1 (msg : List Nat) : List Nat :=
  match (chunks64 (sha1Pad msg).length (sha1Pad msg)).foldl sha1Compress
      (0x67452301, 0xEFCDAB89, 0x98BADCFE, 0x10325476, 0xC3D2E1F0) with
  | (a, b, c, d, e) =>
    beBytes 4 a ++ beBytes 4 b ++ beBytes 4 c ++ beBytes 4 d ++ beBytes 4 e

/-- Lowercase hexadecimal digit of a value below 16. -/
def hexDigitChar (n : Nat) : Char :=
  if n < 10 then Char.ofNat (48 + n) else Char.ofNat (87 + n)

/-- Lowercase hexadecimal rendering of a byte list, as hex encode. -/
def hexEncode (bs : List Nat) : String :=
  String.mk (bs.foldr (fun b acc => hexDigitChar (b / 16) :: hexDigitChar (b % 16) :: acc) [])

/-- The write path of write_blob followed by Object::write: the digest is
computed over the header followed by the raw content, before compression. -/
def writeBlobHash (content : List Nat) : List Nat :=
  sha1 (encodeHeaderBytes .blob content.length ++ content)

/-- Taking the length of the left part of an append returns that part. -/
theorem take_append_self (a b : List Nat) : (a ++ b).take a.length = a := by
  induction a with
  | nil => rfl
  | cons x xs ih => simp [ih]

/-- Dropping the length of the left part of an append returns the right part. -/
theorem drop_append_self (a b : List Nat) : (a ++ b).drop a.length = b := by
  induction a with
  | nil => rfl
  | cons x xs ih => simp [ih]

/-- Taking at least the length of a list returns the whole list. -/
theorem take_of_le_len (l : List Nat) (n : Nat) (h : l.length ≤ n) : l.take n = l := by
  induction l generalizing n with
  | nil => simp
  | cons x xs ih =>
    cases n with
    | zero => simp at h
    | succ m =>
      simp only [List.length_cons, Nat.succ_le_succ_iff] at h
      simp [ih m h]

/-- readUntil consumes exactly through the first delimiter occurrence. -/
theorem readUntil_append (d : Nat) (A rest : List Nat) (h : d ∉ A) :
    readUntil d (A ++ d :: rest) = (A ++ [d], rest) := by
  induction A with
  | nil => simp [readUntil]
  | cons a la ih =>
    have ha : ¬ (a = d) := fun he => h (he ▸ List.mem_cons_self a la)
    simp [readUntil, ha, ih (fun hm => h (List.mem_cons_of_mem a hm))]

/-- CStr conversion of a NUL-terminated run with no interior NUL. -/
theorem cstr_append_nul (A : List Nat) (h : (0:Nat) ∉ A) :
    cstrFromBytesWithNul (A ++ [0]) = some A := by
  have hall : (A ++ [0]).dropLast.all (fun b => b != 0) = true := by
    simp only [List.dropLast_concat, List.all_eq_true]
    intro b hb
    have hb0 : b ≠ 0 := fun he => h (he ▸ hb)
    simpa using hb0
  simp [cstrFromBytesWithNul, hall]
  exact h

/-- split_once at the first occurrence of the separator. -/
theorem splitOnceByte_append (d : Nat) (K D : List Nat) (h : d ∉ K) :
    splitOnceByte d (K ++ d :: D) = some (K, D) := by
  induction K with
  | nil => simp [splitOnceByte]
  | cons a la ih =>
    have ha : ¬ (a = d) := fun he => h (he ▸ List.mem_cons_self a la)
    simp [splitOnceByte, ha, ih (fun hm => h (List.mem_cons_of_mem a hm))]

/-- split_once misses when the separator does not occur. -/
theorem splitOnceByte_none (d : Nat) (l : List Nat) (h : d ∉ l) :
    splitOnceByte d l = none := by
  induction l with
  | nil => rfl
  | cons a la ih =>
    have ha : ¬ (a = d) := fun he => h (he ▸ List.mem_cons_self a la)
    simp [splitOnceByte, ha, ih (fun hm => h (List.mem_cons_of_mem a hm))]

/-- A sequence of bytes below 128 is valid UTF-8. -/
theorem validUtf8_ascii (l : List Nat) (h : ∀ b ∈ l, b < 128) : validUtf8 l = true := by
  induction l with
  | nil => rfl
  | cons b bs ih =>
    have hb : b < 128 := h b (List.mem_cons_self b bs)
    show validUtf8Go [] (b :: bs) = true
    simp only [validUtf8Go, if_pos hb]
    exact ih (fun x hx => h x (List.mem_cons_of_mem b hx))

/-- Every entry of the fueled decimal-digit list is a digit. -/
theorem decDigitsRev_lt (fuel : Nat) : ∀ n, ∀ d ∈ decDigitsRev fuel n, d < 10 := by
  induction fuel with
  | zero => intro n d hd; simp [decDigitsRev] at hd
  | succ f ih =>
    intro n d hd
    by_cases hn : n = 0
    · simp [decDigitsRev, hn] at hd
    · simp only [decDigitsRev, if_neg hn, List.mem_cons] at hd
      rcases hd with h1 | h2
      · exact h1 ▸ Nat.mod_lt n (by norm_num)
      · exact ih (n / 10) d h2

/-- Folding the fueled decimal digits back recovers the number when the
fuel dominates it. -/
theorem decDigitsRev_foldr (fuel : Nat) : ∀ n, n ≤ fuel →
    (decDigitsRev fuel n).foldr (fun d acc => acc * 10 + d) 0 = n := by
  induction fuel with
  | zero =>
    intro n hn
    have : n = 0 := Nat.le_zero.mp hn
    subst this; rfl
  | succ f ih =>
    intro n hn
    by_cases h0 : n = 0
    · simp [decDigitsRev, h0]
    · have hlt : n / 10 < n := Nat.div_lt_self (Nat.pos_of_ne_zero h0) (by norm_num)
      have hdiv : n / 10 ≤ f := by omega
      simp only [decDigitsRev, if_neg h0, List.foldr_cons]
      rw [ih (n / 10) hdiv, Nat.mul_comm]
      exact Nat.div_add_mod n 10

/-- Every byte of the decimal rendering is an ASCII digit. -/
theorem decBytes_digits (n : Nat) : ∀ b ∈ decBytes n, 48 ≤ b ∧ b ≤ 57 := by
  intro b hb
  by_cases h0 : n = 0
  · simp [decBytes, h0] at hb
    omega
  · simp only [decBytes, if_neg h0, List.mem_map, List.mem_reverse] at hb
    obtain ⟨d, hd, rfl⟩ := hb
    have := decDigitsRev_lt n n d hd
    omega

/-- The decimal rendering is never empty. -/
theorem decBytes_ne_nil (n : Nat) : decBytes n ≠ [] := by
  by_cases h0 : n = 0
  · simp [decBytes, h0]
  · simp only [decBytes, if_neg h0]
    cases n with
    | zero => exact absurd rfl h0
    | succ f => simp [decDigitsRev]

/-- Mapping digits to ASCII and folding with a 48 correction equals the
plain digit fold, for any initial accumulator. -/
theorem foldl_digit_gen (M : List Nat) : ∀ a : Nat,
    (M.map (fun d => d + 48)).foldl (fun acc b => acc * 10 + (b - 48)) a =
      M.foldl (fun acc d => acc * 10 + d) a := by
  induction M with
  | nil => intro a; rfl
  | cons x xs ih =>
    intro a
    simp only [List.map_cons, List.foldl_cons]
    rw [ih]
    have hx : a * 10 + (x + 48 - 48) = a * 10 + x := by omega
    rw [hx]

/-- Folding the reversed digit list from the left equals folding the
original from the right. -/
theorem foldl_rev_digits (L : List Nat) :
    L.reverse.foldl (fun acc d => acc * 10 + d) 0 =
      L.foldr (fun d acc => acc * 10 + d) 0 := by
  rw [List.foldl_reverse]

/-- Parsing the decimal rendering of a 64-bit value returns that value. -/
theorem parseU64_decBytes (n : Nat) (hn : n < 18446744073709551616) :
    parseU64 (decBytes n) = some n := by
  have hval : (decBytes n).foldl (fun acc b => acc * 10 + (b - 48)) 0 = n := by
    by_cases h0 : n = 0
    · subst h0; rfl
    · simp only [decBytes, if_neg h0]
      rw [foldl_digit_gen ((decDigitsRev n n).reverse) 0, foldl_rev_digits,
        decDigitsRev_foldr n n (Nat.le_refl n)]
  have hplus : ((decBytes n).head? == some 43) = false := by
    cases hdm : decBytes n with
    | nil => exact absurd hdm (decBytes_ne_nil n)
    | cons x xs =>
      have hx : x ∈ decBytes n := by rw [hdm]; exact List.mem_cons_self x xs
      have := decBytes_digits n x hx
      simp
      omega
  have hempty : (decBytes n).isEmpty = false := by
    cases hdm : decBytes n with
    | nil => exact absurd hdm (decBytes_ne_nil n)
    | cons x xs => rfl
  have hall : (decBytes n).all (fun b => 48 ≤ b && b ≤ 57) = true := by
    rw [List.all_eq_true]
    intro b hb
    have := decBytes_digits n b hb
    simp
    omega
  simp [parseU64, hplus, hempty, hall, hval, hn]

/-- The bytes of each kind token avoid NUL and space and are ASCII. -/
theorem tokenBytes_facts (k : Kind) :
    ∀ b ∈ k.tokenBytes, b ≠ 0 ∧ b ≠ 32 ∧ b < 128 := by
  cases k <;> decide

/-- Converting a kind token back recovers the kind. -/
theorem kindFromBytes_token (k : Kind) : kindFromBytes k.tokenBytes = some k := by
  cases k <;> rfl

/-- Parsing the NUL-stripped encoded header recovers kind and size. -/
theorem parseHeaderBytes_encode (k : Kind) (n : Nat) (hn : n < 18446744073709551616) :
    parseHeaderBytes (k.tokenBytes ++ 32 :: decBytes n) = .ok (k, n) := by
  have hutf : validUtf8 (k.tokenBytes ++ 32 :: decBytes n) = true := by
    apply validUtf8_ascii
    intro b hb
    rcases List.mem_append.mp hb with h1 | h2
    · exact (tokenBytes_facts k b h1).2.2
    · rcases List.mem_cons.mp h2 with h3 | h4
      · omega
      · have := decBytes_digits n b h4
        omega
  have hsplit : splitOnceByte 32 (k.tokenBytes ++ 32 :: decBytes n) =
      some (k.tokenBytes, decBytes n) :=
    splitOnceByte_append 32 _ _ (fun hm => ((tokenBytes_facts k 32 hm).2.1 rfl))
  simp [parseHeaderBytes, hutf, hsplit, kindFromBytes_token, parseU64_decBytes n hn]

/-- Parsing an encoded header followed by anything recovers kind, size and
the trailing bytes untouched. -/
theorem parseHeader_encode (k : Kind) (n : Nat) (extra : List Nat)
    (hn : n < 18446744073709551616) :
    parseHeader (encodeHeaderBytes k n ++ extra) = .ok ((k, n), extra) := by
  have hA : (0:Nat) ∉ k.tokenBytes ++ 32 :: decBytes n := by
    intro hm
    rcases List.mem_append.mp hm with h1 | h2
    · exact (tokenBytes_facts k 0 h1).1 rfl
    · rcases List.mem_cons.mp h2 with h3 | h4
      · omega
      · have := decBytes_digits n 0 h4
        omega
  have hstream : encodeHeaderBytes k n ++ extra =
      (k.tokenBytes ++ 32 :: decBytes n) ++ 0 :: extra := by
    simp [encodeHeaderBytes]
  have hru := readUntil_append 0 (k.tokenBytes ++ 32 :: decBytes n) extra hA
  have hcstr := cstr_append_nul _ hA
  simp only [List.append_assoc, List.cons_append] at hru hcstr hstream
  rw [hstream]
  simp [parseHeader, hru, hcstr, parseHeaderBytes_encode k n hn]

/-- The octal mode bytes avoid the space byte, are ASCII, and convert back
to the mode they render. -/
theorem modeBytes_facts (m : TreeEntryMode) :
    (32:Nat) ∉ octalRender m.modeVal ∧ validUtf8 (octalRender m.modeVal) = true ∧
      modeFromBytes (octalRender m.modeVal) = some m := by
  cases m <;> decide

/-- A list extended on the right by one element is never empty. -/
theorem isEmpty_snoc (l : List Nat) (b : Nat) : (l ++ [b]).isEmpty = false := by
  cases l <;> rfl

/-- One iterator call on a serialized entry followed by anything parses
exactly that entry and leaves the rest. -/
theorem treeIterNext_serialize (e : TreeEntry) (rest : List Nat)
    (hname : (0:Nat) ∉ e.name) (hhash : e.hash.length = 20) :
    treeIterNext (serializeEntry e ++ rest) = .ok (some (e, rest)) := by
  obtain ⟨m, nm, hs⟩ := e
  simp only at hname hhash
  have hfacts := modeBytes_facts m
  have hstream : serializeEntry ⟨m, nm, hs⟩ ++ rest =
      (octalRender m.modeVal) ++ 32 :: (nm ++ 0 :: (hs ++ rest)) := by
    simp [serializeEntry]
  have hru1 := readUntil_append 32 (octalRender m.modeVal) (nm ++ 0 :: (hs ++ rest)) hfacts.1
  have hru2 := readUntil_append 0 nm (hs ++ rest) hname
  have hcstr := cstr_append_nul nm hname
  have hlen : 20 ≤ (hs ++ rest).length := by
    simp [hhash]
  rw [hstream]
  simp only [treeIterNext, hru1, isEmpty_snoc, List.dropLast_concat, hfacts.2.1,
    hfacts.2.2, hru2, hcstr, hlen, if_true, if_pos hlen]
  simp only [Bool.false_eq_true, if_false]
  rw [← hhash, take_append_self, drop_append_self]

/-- Unfolding one successful step of the fueled iterator loop. -/
theorem runTreeIter_step (fuel : Nat) (e : TreeEntry) (s rest : List Nat)
    (hnext : treeIterNext s = .ok (some (e, rest))) :
    runTreeIter (fuel + 1) s =
      match runTreeIter fuel rest with
      | .ok es => .ok (e :: es)
      | .err er => .err er
      | .panicked => .panicked := by
  simp [runTreeIter, hnext]

/-- Claim C1 (code bug): the commit payload written by write_commit never
contains the token committer; the second identity line instead begins with
the misspelled token commiter, shown here on a concrete commit of the
well-known empty tree with message init, no parent, timestamp zero and
timezone +0000. -/
theorem commit_payload_commiter_typo :
    containsSub (asciiBytes "committer")
      (buildCommitPayload (asciiBytes "4b825dc642cb6eb9a060e54bf8d69288fbee4904")
        (asciiBytes "init") none 0 (asciiBytes "+0000")) = false ∧
    containsSub (asciiBytes "commiter ")
      (buildCommitPayload (asciiBytes "4b825dc642cb6eb9a060e54bf8d69288fbee4904")
        (asciiBytes "init") none 0 (asciiBytes "+0000")) = true := by
  decide

/-- Claim C2 (counterexample): a directory entry named foo does not compare
strictly less than a normal-file entry named foo.txt; the comparison
returns greater. -/
theorem dir_foo_before_file_counterexample :
    TreeEntry.cmp ⟨.directory, asciiBytes "foo", List.replicate 20 0⟩
        ⟨.normalFile, asciiBytes "foo.txt", List.replicate 20 0⟩ ≠ .lt ∧
    TreeEntry.cmp ⟨.directory, asciiBytes "foo", List.replicate 20 0⟩
        ⟨.normalFile, asciiBytes "foo.txt", List.replicate 20 0⟩ = .gt := by
  decide

/-- Claim C2 (amended): for every pair of hashes and every non-directory
mode, a directory entry named foo compares strictly greater than (sorts
after) an entry named foo.txt, exactly as the name foo slash would, since
the slash byte exceeds the dot byte. -/
theorem dir_foo_sorts_after_file (m : TreeEntryMode) (h1 h2 : List Nat)
    (hm : m.isDirectory = false) :
    TreeEntry.cmp ⟨.directory, asciiBytes "foo", h1⟩
      ⟨m, asciiBytes "foo.txt", h2⟩ = .gt := by
  cases m
  case directory => exact absurd hm (by decide)
  all_goals rfl

/-- Witness for claim C2 at a concrete non-directory mode and hashes. -/
theorem dir_foo_sorts_after_file_witness :
    TreeEntry.cmp ⟨.directory, asciiBytes "foo", List.replicate 20 1⟩
      ⟨.symlink, asciiBytes "foo.txt", List.replicate 20 2⟩ = .gt :=
  dir_foo_sorts_after_file .symlink (List.replicate 20 1) (List.replicate 20 2) (by decide)

/-- Claim C3 (code bug): the equality test of tree entries applies the
directory test in one direction only, so a normal file named foo and a
directory named foo compare equal in one argument order and unequal in the
other, violating the symmetric inequality the claim states. -/
theorem tree_entry_eq_asymmetric :
    TreeEntry.eqRs ⟨.normalFile, asciiBytes "foo", List.replicate 20 0⟩
        ⟨.directory, asciiBytes "foo", List.replicate 20 0⟩ = true ∧
    TreeEntry.eqRs ⟨.directory, asciiBytes "foo", List.replicate 20 0⟩
        ⟨.normalFile, asciiBytes "foo", List.replicate 20 0⟩ = false := by
  decide

/-- Claim C4 (counterexample): on a stored stream whose header blob6 has a
NUL terminator but no space, Object::read does not return any error; it
aborts through the unwrap of split_once. -/
theorem missing_space_counterexample :
    RRes.isErr (readObject (asciiBytes "blob6" ++ [0])) = false ∧
    readObject (asciiBytes "blob6" ++ [0]) = .panicked := by
  decide

/-- Claim C4 (amended): for every stored stream beginning with a
NUL-terminated header that is valid UTF-8 and contains no space before the
NUL, Object::read aborts via the unwrap on the missing space instead of
returning a header-parse error. -/
theorem missing_space_panics (hdr rest : List Nat) (h0 : (0:Nat) ∉ hdr)
    (hu : validUtf8 hdr = true) (hs : (32:Nat) ∉ hdr) :
    readObject (hdr ++ 0 :: rest) = .panicked := by
  have hru := readUntil_append 0 hdr rest h0
  simp [readObject, parseHeader, hru, cstr_append_nul hdr h0, parseHeaderBytes, hu,
    splitOnceByte_none 32 hdr hs]

/-- Witness for claim C4 at the concrete spaceless header tree12. -/
theorem missing_space_panics_witness :
    readObject (asciiBytes "tree12" ++ 0 :: []) = .panicked :=
  missing_space_panics (asciiBytes "tree12") [] (by decide) (by decide) (by decide)

set_option maxRecDepth 100000 in
/-- Claim C5 (counterexample): the hex hash of a stored blob with content
hello and a newline is not the 39-character string quoted by the claim. -/
theorem blob_hash_counterexample :
    ¬ (hexEncode (writeBlobHash (asciiBytes "hello\n")) =
      "ce013625030ba8dba906f756967f9e9ca394464") := by
  decide

set_option maxRecDepth 100000 in
/-- Claim C5 (amended): storing a blob whose content is the six bytes of
hello and a newline hashes to the 40-character hex digest ending in the
byte a that the claim drops, and reading the stored stream back returns
kind blob, size six and that payload. -/
theorem blob_hash_hello_roundtrip :
    hexEncode (writeBlobHash (asciiBytes "hello\n")) =
      "ce013625030ba8dba906f756967f9e9ca394464a" ∧
    readObject (encodeHeaderBytes Kind.blob 6 ++ asciiBytes "hello\n") =
      .ok (Kind.blob, 6, asciiBytes "hello\n") := by
  decide

/-- Claim C6: decoding the header bytes produced by encoding any kind with
any size below 2 to the 64 succeeds and returns exactly that kind and
size, with nothing left over. -/
theorem header_roundtrip (k : Kind) (n : Nat) (hn : n < 18446744073709551616) :
    parseHeader (encodeHeaderBytes k n) = .ok ((k, n), []) := by
  have h := parseHeader_encode k n [] hn
  simpa using h

/-- Witness for claim C6 at kind commit and size twelve. -/
theorem header_roundtrip_witness :
    parseHeader (encodeHeaderBytes Kind.commit 12) = .ok ((Kind.commit, 12), []) :=
  header_roundtrip Kind.commit 12 (by norm_num)

/-- Claim C7: iterating over the payload obtained by serializing any list
of entries whose names avoid NUL and whose hashes are 20 bytes yields
exactly those entries in order and then reports the end, within one
iterator call per entry plus the final empty call. -/
theorem tree_iter_roundtrip (es : List TreeEntry)
    (h : ∀ e ∈ es, (0:Nat) ∉ e.name ∧ e.hash.length = 20) :
    runTreeIter (es.length + 1) (serializeTreePayload es) = .ok es := by
  induction es with
  | nil => rfl
  | cons e tl ih =>
    have he := h e (List.mem_cons_self e tl)
    have htl : ∀ x ∈ tl, (0:Nat) ∉ x.name ∧ x.hash.length = 20 :=
      fun x hx => h x (List.mem_cons_of_mem e hx)
    have hser : serializeTreePayload (e :: tl) =
        serializeEntry e ++ serializeTreePayload tl := rfl
    simp only [List.length_cons, hser]
    rw [runTreeIter_step (tl.length + 1) e _ _
      (treeIterNext_serialize e (serializeTreePayload tl) he.1 he.2)]
    rw [ih htl]

/-- Witness for claim C7 on a one-entry tree. -/
theorem tree_iter_roundtrip_witness :
    runTreeIter 2 (serializeTreePayload
        [⟨.normalFile, asciiBytes "a", List.replicate 20 7⟩]) =
      .ok [⟨.normalFile, asciiBytes "a", List.replicate 20 7⟩] :=
  tree_iter_roundtrip [⟨.normalFile, asciiBytes "a", List.replicate 20 7⟩] (by decide)

/-- Claim C8: the payload handed back by a successful Object::read is
bounded by the declared size, and for a stream carrying an encoded header,
a full payload of the declared length and trailing garbage, read returns
exactly the payload with the garbage never handed out. -/
theorem bounded_payload :
    (∀ (s : List Nat) (k : Kind) (n : Nat) (p : List Nat),
        readObject s = .ok (k, n, p) → p.length ≤ n) ∧
    (∀ (k : Kind) (n : Nat) (payload garbage : List Nat),
        n < 18446744073709551616 → payload.length = n →
        readObject (encodeHeaderBytes k n ++ (payload ++ garbage)) =
          .ok (k, n, payload)) := by
  constructor
  · intro s k n p h
    cases hp : parseHeader s with
    | ok kn =>
      simp only [readObject, hp] at h
      cases h
      rw [List.length_take]
      omega
    | err e => simp [readObject, hp] at h
    | panicked => simp [readObject, hp] at h
  · intro k n payload garbage hn hlen
    rw [readObject, parseHeader_encode k n (payload ++ garbage) hn]
    simp only
    rw [← hlen, take_append_self]

/-- Witness for claim C8 on a concrete two-byte blob with trailing garbage. -/
theorem bounded_payload_witness :
    List.length [104, 105] ≤ 2 ∧
    readObject (encodeHeaderBytes Kind.blob 2 ++ ([104, 105] ++ [9])) =
      .ok (Kind.blob, 2, [104, 105]) :=
  ⟨bounded_payload.1 (encodeHeaderBytes Kind.blob 2 ++ ([104, 105] ++ [9]))
      Kind.blob 2 [104, 105]
      (bounded_payload.2 Kind.blob 2 [104, 105] [9] (by norm_num) rfl),
    bounded_payload.2 Kind.blob 2 [104, 105] [9] (by norm_num) rfl⟩

/-- Claim C9: the path derivation at the top of Object::read aborts, never
returning an error, whenever the hash argument is shorter than two bytes
or byte index two falls inside a multi-byte character. -/
theorem short_hash_panics (hash : List Nat)
    (h : hash.length < 2 ∨ (2 < hash.length ∧ isUtf8Cont (hash.getD 2 0) = true)) :
    objectPathOf hash = .panicked := by
  have hb : isCharBoundary hash 2 = false := by
    rcases h with h1 | ⟨h2, h3⟩
    · have hx : (2 == hash.length) = false := by
        simp
        omega
      have hy : decide (2 < hash.length) = false := by
        simp
        omega
      simp [isCharBoundary, hx, hy]
    · have hx : (2 == hash.length) = false := by
        simp
        omega
      simp [isCharBoundary, hx]
      intro h4
      simpa using h3
  simp [objectPathOf, hb]

/-- Witness for claim C9 at the one-byte hash a. -/
theorem short_hash_panics_witness : objectPathOf [97] = .panicked :=
  short_hash_panics [97] (Or.inl (by decide))

/-- Claim C10: whenever the stored stream carries a well-formed header
declaring size n but strictly fewer than n payload bytes, Object::read
still succeeds, reporting that kind, size n and the short payload; the
truncation is not detected by read itself. -/
theorem truncated_read_succeeds (s : List Nat) (k : Kind) (n : Nat) (rest : List Nat)
    (h : parseHeader s = .ok ((k, n), rest)) (hlt : rest.length < n) :
    readObject s = .ok (k, n, rest) := by
  simp only [readObject, h]
  rw [take_of_le_len rest n (Nat.le_of_lt hlt)]

/-- Witness for claim C10 on a tree header declaring five bytes over a
two-byte stream. -/
theorem truncated_read_succeeds_witness :
    readObject (encodeHeaderBytes Kind.tree 5 ++ [1, 2]) = .ok (Kind.tree, 5, [1, 2]) :=
  truncated_read_succeeds (encodeHeaderBytes Kind.tree 5 ++ [1, 2]) Kind.tree 5 [1, 2]
    (by decide) (by decide)

end Git
